import Mathlib

/-!
Shallow embedding of the planning-poker WebSocket server
(`src/server.ts`, types from `src/types.ts`, startup from `start`).

The MongoDB `rooms` collection is modelled as a `List RoomDocument`
(documents in insertion order).  `findOne`, `findOneAndUpdate`
(`returnDocument: 'after'`), `updateOne` and `deleteOne` act on the first
matching document, exactly as the single-document MongoDB operations the
server issues.  The in-memory `userSockets` map is modelled by the list of
user ids that currently have a live (open) socket; `ws.send` on the
requester's own socket is recorded in `HandlerOutput.direct`, sends routed
through the registry (`broadcastToUser` / `broadcast`) in
`HandlerOutput.sent`.
-/

namespace Poker

/-- `User` from src/types.ts.  The optional `emoji` presentation field is
never read or written by any handler in src/server.ts and is omitted.
`isReady` is boolean-typed in the source, but the stored BSON value can
also be `null` (the `user:spectate` handler's `$set` passes `undefined`
for it when leaving spectator mode, and the driver — a `MongoClient`
constructed with no options, so `ignoreUndefined: false` — serializes
`undefined` as `null`); it is therefore an `Option Bool`, `none`
standing for the stored `null`.  Likewise `vote` is `string | null`. -/
structure User where
  id : String
  name : String
  isReady : Option Bool
  vote : Option String
  spectator : Bool
deriving Repr, DecidableEq

/-- `RoomDocument` from src/types.ts (the persisted shape; `_id` is the
store's primary key).  `Room` differs only by naming this field `id`, so a
single type models both. -/
structure RoomDocument where
  _id : String
  name : String
  ownerId : String
  users : List User
  revealed : Bool
  cards : List String
  createdAt : Nat
deriving Repr, DecidableEq

/-- One message sent to a client (src/types.ts outgoing messages). -/
inductive ServerMsg where
  | roomCreated (room : RoomDocument) (ownerId : String)
  | roomJoined (room : RoomDocument) (userId : String)
  | roomUpdated (room : RoomDocument)
  | roomError (message : String)
deriving Repr, DecidableEq

/-- A delivery routed through the connection registry. -/
structure Delivery where
  toUser : String
  msg : ServerMsg
deriving Repr, DecidableEq

/-- Messages produced while handling one command: `direct` are `ws.send`
calls on the requester's own socket, `sent` are registry-routed sends. -/
structure HandlerOutput where
  direct : List ServerMsg
  sent : List Delivery
deriving Repr, DecidableEq

/-- The mutable server state: the `rooms` collection plus the ids bound in
the `userSockets` registry to an open socket. -/
structure ServerState where
  rooms : List RoomDocument
  conns : List String
deriving Repr, DecidableEq

/-- `collection.findOne(filter)`: the first matching document. -/
def findOne (p : RoomDocument → Prop) [DecidablePred p] :
    List RoomDocument → Option RoomDocument
  | [] => none
  | r :: rs => if p r then some r else findOne p rs

/-- `collection.findOneAndUpdate(filter, update, {returnDocument: 'after'})`:
updates the first matching document, returning the updated document and the
resulting collection. -/
def findOneAndUpdate (p : RoomDocument → Prop) [DecidablePred p]
    (f : RoomDocument → RoomDocument) :
    List RoomDocument → Option RoomDocument × List RoomDocument
  | [] => (none, [])
  | r :: rs =>
    if p r then (some (f r), f r :: rs)
    else
      let res := findOneAndUpdate p f rs
      (res.1, r :: res.2)

/-- `collection.updateOne(filter, update)`: updates the first match. -/
def updateOne (p : RoomDocument → Prop) [DecidablePred p]
    (f : RoomDocument → RoomDocument) : List RoomDocument → List RoomDocument
  | [] => []
  | r :: rs => if p r then f r :: rs else r :: updateOne p f rs

/-- `collection.deleteOne(filter)`: deletes the first match. -/
def deleteOne (p : RoomDocument → Prop) [DecidablePred p] :
    List RoomDocument → List RoomDocument
  | [] => []
  | r :: rs => if p r then rs else r :: deleteOne p rs

/-- `collection.insertOne(doc)`. -/
def insertOne (r : RoomDocument) (rooms : List RoomDocument) :
    List RoomDocument :=
  rooms ++ [r]

/-- `collection.deleteMany()` with no filter (called in `start`):
removes every document from the collection. -/
def deleteMany (_rooms : List RoomDocument) : List RoomDocument := []

/-- `userSockets.set(uid, ws)` for the (open) socket of the requester. -/
def addConn (uid : String) (conns : List String) : List String :=
  uid :: conns

/-- `broadcastToUser(userId, message)`: sends iff the registry holds an
open socket for the user. -/
def broadcastToUser (conns : List String) (uid : String) (m : ServerMsg) :
    List Delivery :=
  if conns.contains uid then [⟨uid, m⟩] else []

/-- `broadcast({room, message, excludeUserId})`: iterates `room.users`,
skips the excluded user, sends to each user whose registered socket is
open, silently skipping the rest. -/
def broadcast (conns : List String) (room : RoomDocument) (m : ServerMsg)
    (excludeUserId : Option String) : List Delivery :=
  room.users.filterMap (fun u =>
    if excludeUserId = some u.id then none
    else if conns.contains u.id then some ⟨u.id, m⟩ else none)

/-- MongoDB `$push: {users: user}`. -/
def pushUser (u : User) (r : RoomDocument) : RoomDocument :=
  { r with users := r.users ++ [u] }

/-- The fresh participant document built by `room:join`:
`{id, name, isReady: false, vote: null, spectator: false}`. -/
def joinUser (uid userName : String) : User :=
  { id := uid, name := userName, isReady := some false, vote := none,
    spectator := false }

/-- The initial Room document built by `room:create`: the owner (same
shape as a joining participant) is the sole member and `ownerId`. -/
def createRoomDoc (roomName ownerName : String) (cards : List String)
    (ownerId roomId : String) (now : Nat) : RoomDocument :=
  { _id := roomId, name := roomName, ownerId := ownerId,
    users := [joinUser ownerId ownerName], revealed := false, cards := cards,
    createdAt := now }

/-- The `room:create` handler (src/server.ts).  `ownerId`, `roomId` stand
for the two fresh `uuid()` values and `now` for `Date.now()`.  Note: the
handler performs no validation of `roomName`/`ownerName`. -/
def handleCreate (roomName ownerName : String) (cards : List String)
    (ownerId roomId : String) (now : Nat) (st : ServerState) :
    ServerState × HandlerOutput :=
  ({ rooms := insertOne (createRoomDoc roomName ownerName cards ownerId roomId now) st.rooms,
     conns := addConn ownerId st.conns },
   ⟨[], broadcastToUser (addConn ownerId st.conns) ownerId
      (ServerMsg.roomCreated (createRoomDoc roomName ownerName cards ownerId roomId now) ownerId)⟩)

/-- The `room:join` handler.  `uid` is the fresh `uuid()`.  The final
`broadcast` passes no `excludeUserId`. -/
def handleJoin (roomId userName uid : String) (st : ServerState) :
    ServerState × HandlerOutput :=
  match findOne (fun r => r._id = roomId) st.rooms with
  | none => (st, ⟨[ServerMsg.roomError "Sala no encontrada"], []⟩)
  | some _ =>
    match findOneAndUpdate (fun r => r._id = roomId)
        (pushUser (joinUser uid userName)) st.rooms with
    | (none, rooms1) =>
      ({ st with rooms := rooms1 },
       ⟨[ServerMsg.roomError "Error al unirse a la sala"], []⟩)
    | (some updatedRoom, rooms1) =>
      let conns := addConn uid st.conns
      ({ rooms := rooms1, conns := conns },
       ⟨[], broadcastToUser conns uid (ServerMsg.roomJoined updatedRoom uid)
            ++ broadcast conns updatedRoom
                (ServerMsg.roomUpdated updatedRoom) none⟩)

/-- MongoDB positional update `users.$`: rewrites the first array element
matching the query's `users.id` condition. -/
def setFirstUser (uid : String) (g : User → User) : List User → List User
  | [] => []
  | u :: us => if u.id = uid then g u :: us else u :: setFirstUser uid g us

/-- A `$set` through the positional operator, as one whole-document
update. -/
def applyToUser (uid : String) (g : User → User) (r : RoomDocument) :
    RoomDocument :=
  { r with users := setFirstUser uid g r.users }

/-- Per-user effect of the `user:vote` `$set`:
`{'users.$.vote': vote, 'users.$.isReady': true}`. -/
def voteUpdate (vote : String) (u : User) : User :=
  { u with vote := some vote, isReady := some true }

/-- The bound part of the `user:vote` handler: one `findOneAndUpdate`
keyed on room id and participant id.  There is no spectator check. -/
def voteBound (rid uid vote : String) (st : ServerState) :
    ServerState × HandlerOutput :=
  match findOneAndUpdate
      (fun r => r._id = rid ∧ ∃ u ∈ r.users, u.id = uid)
      (applyToUser uid (voteUpdate vote)) st.rooms with
  | (none, rooms1) =>
    ({ st with rooms := rooms1 },
     ⟨[ServerMsg.roomError "Error al registrar el voto"], []⟩)
  | (some updatedRoom, rooms1) =>
    ({ st with rooms := rooms1 },
     ⟨[], broadcast st.conns updatedRoom
        (ServerMsg.roomUpdated updatedRoom) none⟩)

/-- The `user:vote` handler.  `currentRoomId`/`currentUserId` are the
connection-local bindings (null before create/join). -/
def handleVote (currentRoomId currentUserId : Option String) (vote : String)
    (st : ServerState) : ServerState × HandlerOutput :=
  match currentRoomId, currentUserId with
  | some rid, some uid => voteBound rid uid vote st
  | _, _ => (st, ⟨[ServerMsg.roomError "No estás en una sala"], []⟩)

/-- Per-user effect of the `user:spectate` `$set`.  The update document is
`{'users.$.spectator': spectator, 'users.$.isReady': spectator ? false :
undefined, 'users.$.vote': spectator ? null : undefined}`.  The driver's
default `ignoreUndefined: false` (the `MongoClient` is built with no
options in src/db.ts) serializes the `undefined` members as BSON `null`,
so entering spectator mode writes `isReady = false`, `vote = null`, while
leaving it writes `isReady = null`, `vote = null` — both directions touch
all three fields. -/
def spectateUpdate (spectator : Bool) (u : User) : User :=
  if spectator then
    { u with spectator := true, isReady := some false, vote := none }
  else { u with spectator := false, isReady := none, vote := none }

/-- The bound part of the `user:spectate` handler: one `findOneAndUpdate`
keyed on room id and participant id.  There is no owner check: any bound
participant present in the room is updated. -/
def spectateBound (rid uid : String) (spectator : Bool) (st : ServerState) :
    ServerState × HandlerOutput :=
  match findOneAndUpdate
      (fun r => r._id = rid ∧ ∃ u ∈ r.users, u.id = uid)
      (applyToUser uid (spectateUpdate spectator)) st.rooms with
  | (none, rooms1) =>
    ({ st with rooms := rooms1 },
     ⟨[ServerMsg.roomError "Error al actualizar el estado de espectador"], []⟩)
  | (some updatedRoom, rooms1) =>
    ({ st with rooms := rooms1 },
     ⟨[], broadcast st.conns updatedRoom
        (ServerMsg.roomUpdated updatedRoom) none⟩)

/-- The `user:spectate` handler. -/
def handleSpectate (currentRoomId currentUserId : Option String)
    (spectator : Bool) (st : ServerState) : ServerState × HandlerOutput :=
  match currentRoomId, currentUserId with
  | some rid, some uid => spectateBound rid uid spectator st
  | _, _ => (st, ⟨[ServerMsg.roomError "No estás en una sala"], []⟩)

/-- The `room:reveal` `$set: {revealed: true}`. -/
def setRevealed (r : RoomDocument) : RoomDocument :=
  { r with revealed := true }

/-- The bound part of the `room:reveal` handler: read, owner check, then
`updateOne`.  The broadcast spreads `revealed: true` over the document
read before the update. -/
def revealBound (rid uid : String) (st : ServerState) :
    ServerState × HandlerOutput :=
  match findOne (fun r => r._id = rid) st.rooms with
  | none => (st, ⟨[ServerMsg.roomError "Sala no encontrada"], []⟩)
  | some room =>
    if room.ownerId ≠ uid then
      (st, ⟨[ServerMsg.roomError "Solo el propietario puede revelar los votos"], []⟩)
    else
      ({ st with rooms := updateOne (fun r => r._id = rid) setRevealed st.rooms },
       ⟨[], broadcast st.conns room
          (ServerMsg.roomUpdated { room with revealed := true }) none⟩)

/-- The `room:reveal` handler. -/
def handleReveal (currentRoomId currentUserId : Option String)
    (st : ServerState) : ServerState × HandlerOutput :=
  match currentRoomId, currentUserId with
  | some rid, some uid => revealBound rid uid st
  | _, _ => (st, ⟨[ServerMsg.roomError "No estás en una sala"], []⟩)

/-- The `room:reset` `$set` with the all-elements operator `users.$[]`:
every participant's `vote` is cleared, `isReady` reset, `revealed`
cleared, in one atomic update. -/
def clearVotes (r : RoomDocument) : RoomDocument :=
  { r with
    users := r.users.map (fun u => { u with vote := none, isReady := some false }),
    revealed := false }

/-- The bound part of the `room:reset` handler: read (with an `ownerId`
projection), owner check, then one `findOneAndUpdate` clearing the round. -/
def resetBound (rid uid : String) (st : ServerState) :
    ServerState × HandlerOutput :=
  match findOne (fun r => r._id = rid) st.rooms with
  | none => (st, ⟨[ServerMsg.roomError "Sala no encontrada"], []⟩)
  | some room =>
    if room.ownerId ≠ uid then
      (st, ⟨[ServerMsg.roomError "Solo el propietario puede reiniciar la votación"], []⟩)
    else
      match findOneAndUpdate (fun r => r._id = rid) clearVotes st.rooms with
      | (none, rooms1) =>
        ({ st with rooms := rooms1 },
         ⟨[ServerMsg.roomError "Error al reiniciar la votación"], []⟩)
      | (some updated, rooms1) =>
        ({ st with rooms := rooms1 },
         ⟨[], broadcast st.conns updated (ServerMsg.roomUpdated updated) none⟩)

/-- The `room:reset` handler. -/
def handleReset (currentRoomId currentUserId : Option String)
    (st : ServerState) : ServerState × HandlerOutput :=
  match currentRoomId, currentUserId with
  | some rid, some uid => resetBound rid uid st
  | _, _ => (st, ⟨[ServerMsg.roomError "No estás en una sala"], []⟩)

/-- MongoDB `$pull: {users: {id: uid}}`: removes every matching element. -/
def pullUser (uid : String) (r : RoomDocument) : RoomDocument :=
  { r with users := r.users.filter (fun u => u.id ≠ uid) }

/-- `true` iff the document matches the query `{'users.id': uid}`. -/
def hasUser (uid : String) (r : RoomDocument) : Bool :=
  r.users.any (fun u => u.id = uid)

/-- One iteration of the `cleanupUser` loop for the snapshot document
`snap`: pull the user, delete the room if it became empty, otherwise
reassign the owner when the departing user was the owner (`snap.ownerId`,
read from the pre-pull snapshot; `newOwner` is `updated.users[0]`).
The room-wide `room:updated` broadcasts do not change the store and are
not tracked here. -/
def cleanupStep (uid : String) (snap : RoomDocument)
    (rooms : List RoomDocument) : List RoomDocument :=
  match findOneAndUpdate (fun r => r._id = snap._id) (pullUser uid) rooms with
  | (none, rooms1) => rooms1
  | (some updated, rooms1) =>
    match updated.users with
    | [] => deleteOne (fun r => r._id = updated._id) rooms1
    | newOwner :: _ =>
      if snap.ownerId = uid then
        updateOne (fun r => r._id = updated._id)
          (fun r => { r with ownerId := newOwner.id }) rooms1
      else rooms1

/-- `cleanupUser({uid})` (src/server.ts): snapshot all rooms containing the
user, then run the per-room loop against the live collection. -/
def cleanupUser (uid : String) (rooms : List RoomDocument) :
    List RoomDocument :=
  (rooms.filter (hasUser uid)).foldl
    (fun acc snap => cleanupStep uid snap acc) rooms

/-- Full disconnect handling: `userSockets.delete(uid)` (synchronous, the
registry entry goes first) plus the store cleanup. -/
def cleanupState (uid : String) (st : ServerState) : ServerState :=
  { rooms := cleanupUser uid st.rooms,
    conns := st.conns.filter (fun v => v ≠ uid) }

/-- `start()` before any connection is accepted: connect, then
`roomsCol.deleteMany()`.  The registry starts empty (it is in-memory). -/
def startServer (prior : List RoomDocument) : ServerState :=
  { rooms := deleteMany prior, conns := [] }

/-- One handled command, as a transition between server states.  Fresh
`uuid()` room ids never collide with an existing document id, which the
`hFresh` side condition records for `room:create`. -/
inductive Step : ServerState → ServerState → Prop where
  | create (roomName ownerName : String) (cards : List String)
      (ownerId roomId : String) (now : Nat) (st : ServerState)
      (hFresh : roomId ∉ st.rooms.map RoomDocument._id) :
      Step st (handleCreate roomName ownerName cards ownerId roomId now st).1
  | join (roomId userName uid : String) (st : ServerState) :
      Step st (handleJoin roomId userName uid st).1
  | vote (crid cuid : Option String) (v : String) (st : ServerState) :
      Step st (handleVote crid cuid v st).1
  | spectate (crid cuid : Option String) (flag : Bool) (st : ServerState) :
      Step st (handleSpectate crid cuid flag st).1
  | reveal (crid cuid : Option String) (st : ServerState) :
      Step st (handleReveal crid cuid st).1
  | reset (crid cuid : Option String) (st : ServerState) :
      Step st (handleReset crid cuid st).1
  | disconnect (uid : String) (st : ServerState) :
      Step st (cleanupState uid st)

/-- States reachable from a process start (over any prior store contents)
by handled commands and disconnects. -/
inductive Reachable : ServerState → Prop where
  | init (prior : List RoomDocument) : Reachable (startServer prior)
  | step {s s' : ServerState} : Reachable s → Step s s' → Reachable s'

/-- Per-document well-formedness: non-empty membership and an owner drawn
from the members. -/
def RoomWf (r : RoomDocument) : Prop :=
  r.users ≠ [] ∧ r.ownerId ∈ r.users.map User.id

/-- Store-level invariant: every document well-formed, primary keys
distinct (the store enforces `_id` uniqueness). -/
def StoreWf (rooms : List RoomDocument) : Prop :=
  (∀ r ∈ rooms, RoomWf r) ∧ (rooms.map RoomDocument._id).Nodup

/-- Net per-document effect of one `cleanupUser` loop iteration on the
document it targets (derived below as `cleanupStep_head`). -/
def cleanupDoc (uid snapOwner : String) (d : RoomDocument) :
    Option RoomDocument :=
  let updated := pullUser uid d
  match updated.users with
  | [] => none
  | newOwner :: _ =>
    some (if snapOwner = uid then { updated with ownerId := newOwner.id }
          else updated)

/-! Concrete states used to exercise the handlers. -/

/-- A participant who is not a spectator. -/
def exAlice : User :=
  { id := "u1", name := "alice", isReady := some false, vote := none,
    spectator := false }

/-- A second participant. -/
def exBob : User :=
  { id := "u2", name := "bob", isReady := some false, vote := none,
    spectator := false }

/-- A participant in spectator mode. -/
def exBobSpect : User :=
  { id := "u2", name := "bob", isReady := some false, vote := none,
    spectator := true }

/-- A two-member room owned by `exAlice` whose second member is a
spectator. -/
def exRoomSpect : RoomDocument :=
  { _id := "r1", name := "sala", ownerId := "u1", users := [exAlice, exBobSpect],
    revealed := false, cards := ["1", "2"], createdAt := 0 }

/-- Server state holding `exRoomSpect`, both sockets open. -/
def exStSpect : ServerState :=
  { rooms := [exRoomSpect], conns := ["u1", "u2"] }

/-- A two-member room owned by `exAlice` (no spectators). -/
def exRoomTwo : RoomDocument :=
  { _id := "r1", name := "sala", ownerId := "u1", users := [exAlice, exBob],
    revealed := false, cards := ["1", "2"], createdAt := 0 }

/-- State reached by starting the server and creating one room. -/
def exCreateSt : ServerState :=
  (handleCreate "sala" "ana" ["1", "2"] "o1" "r1" 0 (startServer [])).1

/-- State reached when, after `exCreateSt`, the owner turns spectator. -/
def exSpectOwnerSt : ServerState :=
  (handleSpectate (some "r1") (some "o1") true exCreateSt).1

/-- State reached by starting the server and creating a room for alice. -/
def exAliceSt : ServerState :=
  (handleCreate "sala" "alice" ["1", "2"] "u1" "r1" 0 (startServer [])).1

/-- State holding the two-member room, both sockets open. -/
def exStTwo : ServerState :=
  { rooms := [exRoomTwo], conns := ["u1", "u2"] }

/-- The room document after `exBob` joins `exAlice` in `exAliceSt`. -/
def exJoinedRoom : RoomDocument :=
  { _id := "r1", name := "sala", ownerId := "u1",
    users := [joinUser "u1" "alice", joinUser "u2" "bob"], revealed := false,
    cards := ["1", "2"], createdAt := 0 }

/-- `exBobSpect` after a successful vote of "5". -/
def exBobSpectVoted : User :=
  { id := "u2", name := "bob", isReady := some true, vote := some "5",
    spectator := true }

/-- The spectator room once its spectator member holds a recorded vote. -/
def exRoomSpectVoted : RoomDocument :=
  { exRoomSpect with users := [exAlice, exBobSpectVoted] }

/-- State holding `exRoomSpectVoted`, both sockets open. -/
def exStSpectVoted : ServerState :=
  { rooms := [exRoomSpectVoted], conns := ["u1", "u2"] }

/-- `exBobSpectVoted` after leaving spectator mode: the driver writes the
update's `undefined` members as `null`, clearing `vote` and `isReady`. -/
def exBobLeftSpect : User :=
  { id := "u2", name := "bob", isReady := none, vote := none,
    spectator := false }

/-- The room owner of `exCreateSt` flipped into spectator mode. -/
def exAnaSpect : User :=
  { id := "o1", name := "ana", isReady := some false, vote := none,
    spectator := true }

/-- The `exCreateSt` room after its owner turned spectator. -/
def exOwnerSpectRoom : RoomDocument :=
  { _id := "r1", name := "sala", ownerId := "o1", users := [exAnaSpect],
    revealed := false, cards := ["1", "2"], createdAt := 0 }

/-- A sequence of `user:vote` commands against room `rid`, each entry one
`(participant id, vote)` pair, processed in order. -/
def applyVotes (rid : String) (votes : List (String × String))
    (st : ServerState) : ServerState :=
  votes.foldl (fun s pv => (handleVote (some rid) (some pv.1) pv.2 s).1) st

end Poker

namespace Poker

/-! Generic facts about the modelled store operations. -/

theorem findOne_cons (p : RoomDocument → Prop) [DecidablePred p]
    (r : RoomDocument) (rs : List RoomDocument) :
    findOne p (r :: rs) = if p r then some r else findOne p rs := rfl

theorem findOne_append_not (p : RoomDocument → Prop) [DecidablePred p]
    {as : List RoomDocument} (bs : List RoomDocument)
    (h : ∀ a ∈ as, ¬ p a) : findOne p (as ++ bs) = findOne p bs := by
  induction as with
  | nil => rfl
  | cons a as ih =>
    have ha : ¬ p a := h a (List.mem_cons_self a as)
    rw [List.cons_append, findOne_cons, if_neg ha]
    exact ih (fun x hx => h x (List.mem_cons_of_mem a hx))

theorem findOne_decomp (p : RoomDocument → Prop) [DecidablePred p]
    {l : List RoomDocument} {b : RoomDocument} (h : findOne p l = some b) :
    ∃ as bs, l = as ++ b :: bs ∧ (∀ a ∈ as, ¬ p a) ∧ p b := by
  induction l with
  | nil => simp [findOne] at h
  | cons r rs ih =>
    by_cases hr : p r
    · rw [findOne_cons, if_pos hr] at h
      obtain rfl : r = b := by injection h
      exact ⟨[], rs, rfl, by simp, hr⟩
    · rw [findOne_cons, if_neg hr] at h
      obtain ⟨as, bs, rfl, has, hb⟩ := ih h
      refine ⟨r :: as, bs, rfl, ?_, hb⟩
      intro x hx
      rcases List.mem_cons.mp hx with rfl | hx
      · exact hr
      · exact has x hx

theorem findOneAndUpdate_cons (p : RoomDocument → Prop) [DecidablePred p]
    (f : RoomDocument → RoomDocument) (r : RoomDocument)
    (rs : List RoomDocument) :
    findOneAndUpdate p f (r :: rs) =
      if p r then (some (f r), f r :: rs)
      else ((findOneAndUpdate p f rs).1, r :: (findOneAndUpdate p f rs).2) := by
  by_cases hr : p r <;> simp [findOneAndUpdate, hr]

theorem findOneAndUpdate_decomp (p : RoomDocument → Prop) [DecidablePred p]
    (f : RoomDocument → RoomDocument) {as : List RoomDocument}
    (b : RoomDocument) (bs : List RoomDocument)
    (has : ∀ a ∈ as, ¬ p a) (hb : p b) :
    findOneAndUpdate p f (as ++ b :: bs) = (some (f b), as ++ f b :: bs) := by
  induction as with
  | nil => rw [List.nil_append, findOneAndUpdate_cons, if_pos hb]; rfl
  | cons a as ih =>
    have ha : ¬ p a := has a (List.mem_cons_self a as)
    rw [List.cons_append, findOneAndUpdate_cons, if_neg ha,
      ih (fun x hx => has x (List.mem_cons_of_mem a hx))]
    rfl

theorem findOneAndUpdate_none (p : RoomDocument → Prop) [DecidablePred p]
    (f : RoomDocument → RoomDocument) {l : List RoomDocument}
    (h : ∀ a ∈ l, ¬ p a) : findOneAndUpdate p f l = (none, l) := by
  induction l with
  | nil => rfl
  | cons a as ih =>
    have ha : ¬ p a := h a (List.mem_cons_self a as)
    rw [findOneAndUpdate_cons, if_neg ha,
      ih (fun x hx => h x (List.mem_cons_of_mem a hx))]

theorem findOneAndUpdate_snd_map_id (p : RoomDocument → Prop) [DecidablePred p]
    {f : RoomDocument → RoomDocument} (hf : ∀ r, (f r)._id = r._id)
    (l : List RoomDocument) :
    ((findOneAndUpdate p f l).2).map RoomDocument._id =
      l.map RoomDocument._id := by
  induction l with
  | nil => rfl
  | cons r rs ih =>
    rw [findOneAndUpdate_cons]
    by_cases hr : p r
    · rw [if_pos hr]; simp [hf r]
    · rw [if_neg hr]; simpa using ih

theorem findOneAndUpdate_snd_mem (p : RoomDocument → Prop) [DecidablePred p]
    (f : RoomDocument → RoomDocument) {l : List RoomDocument}
    {x : RoomDocument} (h : x ∈ (findOneAndUpdate p f l).2) :
    x ∈ l ∨ ∃ r ∈ l, x = f r := by
  induction l with
  | nil => simp [findOneAndUpdate] at h
  | cons r rs ih =>
    rw [findOneAndUpdate_cons] at h
    by_cases hr : p r
    · rw [if_pos hr] at h
      rcases List.mem_cons.mp h with rfl | hx
      · exact Or.inr ⟨r, List.mem_cons_self r rs, rfl⟩
      · exact Or.inl (List.mem_cons_of_mem r hx)
    · rw [if_neg hr] at h
      rcases List.mem_cons.mp h with rfl | hx
      · exact Or.inl (List.mem_cons_self x rs)
      · rcases ih hx with hx | ⟨y, hy, rfl⟩
        · exact Or.inl (List.mem_cons_of_mem r hx)
        · exact Or.inr ⟨y, List.mem_cons_of_mem r hy, rfl⟩

theorem updateOne_cons (p : RoomDocument → Prop) [DecidablePred p]
    (f : RoomDocument → RoomDocument) (r : RoomDocument)
    (rs : List RoomDocument) :
    updateOne p f (r :: rs) =
      if p r then f r :: rs else r :: updateOne p f rs := rfl

theorem updateOne_decomp (p : RoomDocument → Prop) [DecidablePred p]
    (f : RoomDocument → RoomDocument) {as : List RoomDocument}
    (b : RoomDocument) (bs : List RoomDocument)
    (has : ∀ a ∈ as, ¬ p a) (hb : p b) :
    updateOne p f (as ++ b :: bs) = as ++ f b :: bs := by
  induction as with
  | nil => rw [List.nil_append, updateOne_cons, if_pos hb]; rfl
  | cons a as ih =>
    have ha : ¬ p a := has a (List.mem_cons_self a as)
    rw [List.cons_append, updateOne_cons, if_neg ha,
      ih (fun x hx => has x (List.mem_cons_of_mem a hx))]
    rfl

theorem updateOne_map_id (p : RoomDocument → Prop) [DecidablePred p]
    {f : RoomDocument → RoomDocument} (hf : ∀ r, (f r)._id = r._id)
    (l : List RoomDocument) :
    (updateOne p f l).map RoomDocument._id = l.map RoomDocument._id := by
  induction l with
  | nil => rfl
  | cons r rs ih =>
    rw [updateOne_cons]
    by_cases hr : p r
    · rw [if_pos hr]; simp [hf r]
    · rw [if_neg hr]; simpa using ih

theorem updateOne_mem (p : RoomDocument → Prop) [DecidablePred p]
    (f : RoomDocument → RoomDocument) {l : List RoomDocument}
    {x : RoomDocument} (h : x ∈ updateOne p f l) :
    x ∈ l ∨ ∃ r ∈ l, x = f r := by
  induction l with
  | nil => simp [updateOne] at h
  | cons r rs ih =>
    rw [updateOne_cons] at h
    by_cases hr : p r
    · rw [if_pos hr] at h
      rcases List.mem_cons.mp h with rfl | hx
      · exact Or.inr ⟨r, List.mem_cons_self r rs, rfl⟩
      · exact Or.inl (List.mem_cons_of_mem r hx)
    · rw [if_neg hr] at h
      rcases List.mem_cons.mp h with rfl | hx
      · exact Or.inl (List.mem_cons_self x rs)
      · rcases ih hx with hx | ⟨y, hy, rfl⟩
        · exact Or.inl (List.mem_cons_of_mem r hx)
        · exact Or.inr ⟨y, List.mem_cons_of_mem r hy, rfl⟩

theorem deleteOne_cons (p : RoomDocument → Prop) [DecidablePred p]
    (r : RoomDocument) (rs : List RoomDocument) :
    deleteOne p (r :: rs) = if p r then rs else r :: deleteOne p rs := rfl

theorem deleteOne_decomp (p : RoomDocument → Prop) [DecidablePred p]
    {as : List RoomDocument} (b : RoomDocument) (bs : List RoomDocument)
    (has : ∀ a ∈ as, ¬ p a) (hb : p b) :
    deleteOne p (as ++ b :: bs) = as ++ bs := by
  induction as with
  | nil => rw [List.nil_append, deleteOne_cons, if_pos hb]; rfl
  | cons a as ih =>
    have ha : ¬ p a := has a (List.mem_cons_self a as)
    rw [List.cons_append, deleteOne_cons, if_neg ha,
      ih (fun x hx => has x (List.mem_cons_of_mem a hx))]
    rfl

theorem setFirstUser_append_not (uid : String) (g : User → User)
    {us1 : List User} (u : User) (us2 : List User)
    (h1 : ∀ w ∈ us1, w.id ≠ uid) (hu : u.id = uid) :
    setFirstUser uid g (us1 ++ u :: us2) = us1 ++ g u :: us2 := by
  induction us1 with
  | nil => simp [setFirstUser, hu]
  | cons w ws ih =>
    have hw : w.id ≠ uid := h1 w (List.mem_cons_self w ws)
    rw [List.cons_append, setFirstUser, if_neg hw,
      ih (fun x hx => h1 x (List.mem_cons_of_mem w hx))]
    rfl

theorem setFirstUser_map_id {g : User → User} (hg : ∀ u, (g u).id = u.id)
    (uid : String) (us : List User) :
    (setFirstUser uid g us).map User.id = us.map User.id := by
  induction us with
  | nil => rfl
  | cons u us ih =>
    rw [setFirstUser]
    by_cases hu : u.id = uid
    · rw [if_pos hu]; simp [hg u]
    · rw [if_neg hu]; simpa using ih

theorem mem_broadcast (conns : List String) (room : RoomDocument)
    (m : ServerMsg) {u : User} (hu : u ∈ room.users)
    (hc : u.id ∈ conns) :
    (⟨u.id, m⟩ : Delivery) ∈ broadcast conns room m none := by
  unfold broadcast
  exact List.mem_filterMap.mpr ⟨u, hu, by simp [hc]⟩

/-! Facts about the disconnect cleanup loop. -/

theorem findOneAndUpdate_fst_prop (p : RoomDocument → Prop) [DecidablePred p]
    (f : RoomDocument → RoomDocument) (hpf : ∀ r, p r → p (f r))
    {l : List RoomDocument} {u : RoomDocument}
    (h : (findOneAndUpdate p f l).1 = some u) : p u := by
  induction l with
  | nil => simp [findOneAndUpdate] at h
  | cons r rs ih =>
    rw [findOneAndUpdate_cons] at h
    by_cases hr : p r
    · rw [if_pos hr] at h
      obtain rfl : f r = u := by injection h
      exact hpf r hr
    · rw [if_neg hr] at h
      exact ih h

theorem pullUser_id (uid : String) (r : RoomDocument) :
    (pullUser uid r)._id = r._id := rfl

theorem cleanupStep_head (uid : String) (snap d : RoomDocument)
    (l : List RoomDocument) (hd : d._id = snap._id) :
    cleanupStep uid snap (d :: l) =
      match cleanupDoc uid snap.ownerId d with
      | none => l
      | some d2 => d2 :: l := by
  unfold cleanupStep cleanupDoc
  rw [findOneAndUpdate_cons, if_pos hd]
  cases hu : (pullUser uid d).users with
  | nil => simp [hu, deleteOne_cons]
  | cons w ws =>
    by_cases ho : snap.ownerId = uid
    · simp [hu, ho, updateOne_cons]
    · simp [hu, ho]

theorem cleanupStep_skip (uid : String) (snap d : RoomDocument)
    (l : List RoomDocument) (hd : d._id ≠ snap._id) :
    cleanupStep uid snap (d :: l) = d :: cleanupStep uid snap l := by
  unfold cleanupStep
  rw [findOneAndUpdate_cons, if_neg hd]
  rcases hp : findOneAndUpdate (fun r => r._id = snap._id) (pullUser uid) l
    with ⟨o, rooms1⟩
  cases o with
  | none => simp [hp]
  | some updated =>
    have h1 : (findOneAndUpdate (fun r => r._id = snap._id)
        (pullUser uid) l).1 = some updated := by rw [hp]
    have hup : updated._id = snap._id :=
      findOneAndUpdate_fst_prop (fun r => r._id = snap._id) (pullUser uid)
        (fun r hr => hr) h1
    have hdup : ¬ d._id = updated._id := by rw [hup]; exact hd
    cases hu : updated.users with
    | nil => simp [hp, hu, deleteOne_cons, hdup]
    | cons w ws =>
      by_cases ho : snap.ownerId = uid
      · simp [hp, hu, ho, updateOne_cons, hdup]
      · simp [hp, hu, ho]

theorem foldl_cleanupStep_skip (uid : String) (d : RoomDocument)
    {pending : List RoomDocument} (l : List RoomDocument)
    (h : ∀ snap ∈ pending, d._id ≠ snap._id) :
    pending.foldl (fun acc snap => cleanupStep uid snap acc) (d :: l) =
      d :: pending.foldl (fun acc snap => cleanupStep uid snap acc) l := by
  induction pending generalizing l with
  | nil => rfl
  | cons s ss ih =>
    rw [List.foldl_cons, List.foldl_cons,
      cleanupStep_skip uid s d l (h s (List.mem_cons_self s ss))]
    exact ih (cleanupStep uid s l) (fun x hx => h x (List.mem_cons_of_mem s hx))

theorem cleanupDoc_id {uid snapOwner : String} {d d2 : RoomDocument}
    (h : cleanupDoc uid snapOwner d = some d2) : d2._id = d._id := by
  unfold cleanupDoc at h
  cases hu : (pullUser uid d).users with
  | nil => simp [hu] at h
  | cons w ws =>
    simp only [hu] at h
    obtain rfl : _ = d2 := by injection h
    by_cases ho : snapOwner = uid <;> simp [ho, pullUser_id]

theorem cleanupDoc_users {uid snapOwner : String} {d d2 : RoomDocument}
    (h : cleanupDoc uid snapOwner d = some d2) :
    d2.users = d.users.filter (fun u => u.id ≠ uid) := by
  unfold cleanupDoc at h
  cases hu : (pullUser uid d).users with
  | nil => simp [hu] at h
  | cons w ws =>
    simp only [hu] at h
    obtain rfl : _ = d2 := by injection h
    by_cases ho : snapOwner = uid
    · rw [if_pos ho]
      show w :: ws = _
      rw [← hu]
      exact rfl
    · rw [if_neg ho]
      exact rfl

theorem cleanupDoc_not_hasUser {uid snapOwner : String} {d d2 : RoomDocument}
    (h : cleanupDoc uid snapOwner d = some d2) :
    hasUser uid d2 = false := by
  rw [hasUser, cleanupDoc_users h]
  simp [List.any_eq_true, List.mem_filter]

theorem cleanupUser_eq_filterMap (uid : String) :
    ∀ l : List RoomDocument, (l.map RoomDocument._id).Nodup →
    cleanupUser uid l =
      l.filterMap
        (fun r => if hasUser uid r then cleanupDoc uid r.ownerId r
                  else some r) := by
  intro l
  induction l with
  | nil => intro _; rfl
  | cons r rs ih =>
    intro hN
    rw [List.map_cons, List.nodup_cons] at hN
    have hrid : r._id ∉ rs.map RoomDocument._id := hN.1
    have hskip : ∀ snap ∈ rs.filter (hasUser uid), r._id ≠ snap._id := by
      intro snap hsnap heq
      exact hrid (heq ▸ List.mem_map_of_mem RoomDocument._id
        (List.mem_of_mem_filter hsnap))
    by_cases hr : hasUser uid r
    · have hfil : (r :: rs).filter (hasUser uid) = r :: rs.filter (hasUser uid) := by
        simp [List.filter_cons, hr]
      rw [cleanupUser, hfil, List.foldl_cons, cleanupStep_head uid r r _ rfl]
      cases hcd : cleanupDoc uid r.ownerId r with
      | none =>
        rw [List.filterMap_cons]
        simp only [hr, if_true, hcd]
        exact ih hN.2
      | some d2 =>
        have hd2 : d2._id = r._id := cleanupDoc_id hcd
        have hskip2 : ∀ snap ∈ rs.filter (hasUser uid), d2._id ≠ snap._id := by
          intro snap hsnap
          rw [hd2]; exact hskip snap hsnap
        rw [foldl_cleanupStep_skip uid d2 rs hskip2, List.filterMap_cons]
        simp only [hr, if_true, hcd]
        rw [← cleanupUser]
        rw [ih hN.2]
    · have hfil : (r :: rs).filter (hasUser uid) = rs.filter (hasUser uid) := by
        simp [List.filter_cons, hr]
      rw [cleanupUser, hfil, foldl_cleanupStep_skip uid r rs hskip,
        List.filterMap_cons, if_neg hr, ← cleanupUser, ih hN.2]

theorem cleanupUser_not_hasUser (uid : String) {l : List RoomDocument}
    (hN : (l.map RoomDocument._id).Nodup) :
    ∀ x ∈ cleanupUser uid l, hasUser uid x = false := by
  intro x hx
  rw [cleanupUser_eq_filterMap uid l hN] at hx
  obtain ⟨r, _, hmap⟩ := List.mem_filterMap.mp hx
  by_cases hr : hasUser uid r
  · rw [if_pos hr] at hmap
    exact cleanupDoc_not_hasUser hmap
  · rw [if_neg hr] at hmap
    obtain rfl : r = x := by injection hmap
    exact Bool.eq_false_iff.mpr hr

theorem cleanupUser_absent (uid : String) {l : List RoomDocument}
    (h : ∀ x ∈ l, hasUser uid x = false) : cleanupUser uid l = l := by
  have hfil : l.filter (hasUser uid) = [] := by
    rw [List.filter_eq_nil_iff]
    intro a ha
    rw [h a ha]
    exact Bool.false_ne_true
  rw [cleanupUser, hfil]
  rfl

/-! Preservation of the store invariant by every handler. -/

theorem roomWf_of_same_view {r r2 : RoomDocument}
    (h2 : r2.users.map User.id = r.users.map User.id)
    (hown : r2.ownerId = r.ownerId) (h : RoomWf r) : RoomWf r2 := by
  constructor
  · intro hnil
    apply h.1
    rw [hnil] at h2
    exact List.map_eq_nil_iff.mp h2.symm
  · rw [hown, h2]
    exact h.2

theorem filterMap_id_sublist (g : RoomDocument → Option RoomDocument)
    (hg : ∀ r d2, g r = some d2 → d2._id = r._id) (l : List RoomDocument) :
    ((l.filterMap g).map RoomDocument._id).Sublist
      (l.map RoomDocument._id) := by
  induction l with
  | nil => simp
  | cons r rs ih =>
    rw [List.filterMap_cons]
    cases hgr : g r with
    | none => rw [List.map_cons]; exact ih.cons _
    | some d2 =>
      rw [List.map_cons, List.map_cons, hg r d2 hgr]
      exact ih.cons₂ _

theorem findOneAndUpdate_storeWf (p : RoomDocument → Prop) [DecidablePred p]
    (f : RoomDocument → RoomDocument) (hid : ∀ r, (f r)._id = r._id)
    (hwf : ∀ r, RoomWf r → RoomWf (f r)) {l : List RoomDocument}
    (h : StoreWf l) : StoreWf (findOneAndUpdate p f l).2 := by
  constructor
  · intro x hx
    rcases findOneAndUpdate_snd_mem p f hx with hx | ⟨r, hr, rfl⟩
    · exact h.1 x hx
    · exact hwf r (h.1 r hr)
  · rw [findOneAndUpdate_snd_map_id p hid]
    exact h.2

theorem updateOne_storeWf (p : RoomDocument → Prop) [DecidablePred p]
    (f : RoomDocument → RoomDocument) (hid : ∀ r, (f r)._id = r._id)
    (hwf : ∀ r, RoomWf r → RoomWf (f r)) {l : List RoomDocument}
    (h : StoreWf l) : StoreWf (updateOne p f l) := by
  constructor
  · intro x hx
    rcases updateOne_mem p f hx with hx | ⟨r, hr, rfl⟩
    · exact h.1 x hx
    · exact hwf r (h.1 r hr)
  · rw [updateOne_map_id p hid]
    exact h.2

theorem spectateUpdate_id (b : Bool) (u : User) :
    (spectateUpdate b u).id = u.id := by
  unfold spectateUpdate
  by_cases hb : b = true
  · rw [if_pos hb]
  · rw [if_neg hb]

theorem pushUser_roomWf (u : User) (r : RoomDocument) (h : RoomWf r) :
    RoomWf (pushUser u r) := by
  constructor
  · simp [pushUser]
  · show r.ownerId ∈ (r.users ++ [u]).map User.id
    rw [List.map_append]
    exact List.mem_append_left _ h.2

theorem applyToUser_roomWf (uid : String) {g : User → User}
    (hg : ∀ u, (g u).id = u.id) (r : RoomDocument) (h : RoomWf r) :
    RoomWf (applyToUser uid g r) := by
  exact roomWf_of_same_view (setFirstUser_map_id hg uid r.users) rfl h

theorem clearVotes_roomWf (r : RoomDocument) (h : RoomWf r) :
    RoomWf (clearVotes r) := by
  have h2 : (clearVotes r).users.map User.id = r.users.map User.id := by
    show (r.users.map _).map User.id = r.users.map User.id
    rw [List.map_map]
    exact rfl
  exact roomWf_of_same_view h2 rfl h

theorem storeWf_handleCreate (roomName ownerName : String)
    (cards : List String) (ownerId roomId : String) (now : Nat)
    (st : ServerState) (hFresh : roomId ∉ st.rooms.map RoomDocument._id)
    (h : StoreWf st.rooms) :
    StoreWf ((handleCreate roomName ownerName cards ownerId roomId now st).1.rooms) := by
  constructor
  · intro x hx
    rcases List.mem_append.mp hx with hx | hx
    · exact h.1 x hx
    · obtain rfl : _ = x := List.mem_singleton.mp hx |>.symm
      exact ⟨by simp [createRoomDoc], by simp [createRoomDoc, joinUser]⟩
  · show ((st.rooms ++ [_]).map RoomDocument._id).Nodup
    rw [List.map_append]
    refine h.2.append (List.nodup_singleton _) ?_
    intro a ha hb
    rw [List.map_singleton, List.mem_singleton] at hb
    subst hb
    exact hFresh ha

theorem storeWf_handleJoin (roomId userName uid : String) (st : ServerState)
    (h : StoreWf st.rooms) :
    StoreWf ((handleJoin roomId userName uid st).1.rooms) := by
  unfold handleJoin
  split
  · exact h
  · split
    · rename_i rooms1 heq
      have hs := findOneAndUpdate_storeWf (fun r => r._id = roomId)
        (pushUser (joinUser uid userName)) (fun r => rfl)
        (pushUser_roomWf _) h
      rw [heq] at hs
      exact hs
    · rename_i updatedRoom rooms1 heq
      have hs := findOneAndUpdate_storeWf (fun r => r._id = roomId)
        (pushUser (joinUser uid userName)) (fun r => rfl)
        (pushUser_roomWf _) h
      rw [heq] at hs
      exact hs

theorem storeWf_voteBound (rid uid v : String) (st : ServerState)
    (h : StoreWf st.rooms) : StoreWf ((voteBound rid uid v st).1.rooms) := by
  unfold voteBound
  split
  · rename_i rooms1 heq
    have hs := findOneAndUpdate_storeWf
      (fun r => r._id = rid ∧ ∃ u ∈ r.users, u.id = uid)
      (applyToUser uid (voteUpdate v)) (fun r => rfl)
      (applyToUser_roomWf uid (fun u => rfl)) h
    rw [heq] at hs
    exact hs
  · rename_i updatedRoom rooms1 heq
    have hs := findOneAndUpdate_storeWf
      (fun r => r._id = rid ∧ ∃ u ∈ r.users, u.id = uid)
      (applyToUser uid (voteUpdate v)) (fun r => rfl)
      (applyToUser_roomWf uid (fun u => rfl)) h
    rw [heq] at hs
    exact hs

theorem storeWf_handleVote (crid cuid : Option String) (v : String)
    (st : ServerState) (h : StoreWf st.rooms) :
    StoreWf ((handleVote crid cuid v st).1.rooms) := by
  cases crid with
  | none => exact h
  | some rid =>
    cases cuid with
    | none => exact h
    | some uid => exact storeWf_voteBound rid uid v st h

theorem storeWf_spectateBound (rid uid : String) (flag : Bool)
    (st : ServerState) (h : StoreWf st.rooms) :
    StoreWf ((spectateBound rid uid flag st).1.rooms) := by
  unfold spectateBound
  split
  · rename_i rooms1 heq
    have hs := findOneAndUpdate_storeWf
      (fun r => r._id = rid ∧ ∃ u ∈ r.users, u.id = uid)
      (applyToUser uid (spectateUpdate flag)) (fun r => rfl)
      (applyToUser_roomWf uid (spectateUpdate_id flag)) h
    rw [heq] at hs
    exact hs
  · rename_i updatedRoom rooms1 heq
    have hs := findOneAndUpdate_storeWf
      (fun r => r._id = rid ∧ ∃ u ∈ r.users, u.id = uid)
      (applyToUser uid (spectateUpdate flag)) (fun r => rfl)
      (applyToUser_roomWf uid (spectateUpdate_id flag)) h
    rw [heq] at hs
    exact hs

theorem storeWf_handleSpectate (crid cuid : Option String) (flag : Bool)
    (st : ServerState) (h : StoreWf st.rooms) :
    StoreWf ((handleSpectate crid cuid flag st).1.rooms) := by
  cases crid with
  | none => exact h
  | some rid =>
    cases cuid with
    | none => exact h
    | some uid => exact storeWf_spectateBound rid uid flag st h

theorem storeWf_revealBound (rid uid : String) (st : ServerState)
    (h : StoreWf st.rooms) : StoreWf ((revealBound rid uid st).1.rooms) := by
  unfold revealBound
  split
  · exact h
  · split
    · exact h
    · exact updateOne_storeWf _ setRevealed (fun r => rfl)
        (fun r hr => ⟨hr.1, hr.2⟩) h

theorem storeWf_handleReveal (crid cuid : Option String) (st : ServerState)
    (h : StoreWf st.rooms) :
    StoreWf ((handleReveal crid cuid st).1.rooms) := by
  cases crid with
  | none => exact h
  | some rid =>
    cases cuid with
    | none => exact h
    | some uid => exact storeWf_revealBound rid uid st h

theorem storeWf_resetBound (rid uid : String) (st : ServerState)
    (h : StoreWf st.rooms) : StoreWf ((resetBound rid uid st).1.rooms) := by
  unfold resetBound
  split
  · exact h
  · split
    · exact h
    · split
      · rename_i rooms1 heq
        have hs := findOneAndUpdate_storeWf (fun r => r._id = rid)
          clearVotes (fun r => rfl) clearVotes_roomWf h
        rw [heq] at hs
        exact hs
      · rename_i updated rooms1 heq
        have hs := findOneAndUpdate_storeWf (fun r => r._id = rid)
          clearVotes (fun r => rfl) clearVotes_roomWf h
        rw [heq] at hs
        exact hs

theorem storeWf_handleReset (crid cuid : Option String) (st : ServerState)
    (h : StoreWf st.rooms) :
    StoreWf ((handleReset crid cuid st).1.rooms) := by
  cases crid with
  | none => exact h
  | some rid =>
    cases cuid with
    | none => exact h
    | some uid => exact storeWf_resetBound rid uid st h

theorem cleanupDoc_roomWf {uid : String} {d d2 : RoomDocument}
    (hwf : RoomWf d) (h : cleanupDoc uid d.ownerId d = some d2) :
    RoomWf d2 := by
  unfold cleanupDoc at h
  cases hu : (pullUser uid d).users with
  | nil => simp [hu] at h
  | cons w ws =>
    simp only [hu] at h
    obtain rfl : _ = d2 := by injection h
    by_cases ho : d.ownerId = uid
    · rw [if_pos ho]
      exact ⟨by simp, by simp⟩
    · rw [if_neg ho]
      constructor
      · rw [hu]
        simp
      · show d.ownerId ∈ (pullUser uid d).users.map User.id
        obtain ⟨u, hu2, hid⟩ := List.mem_map.mp hwf.2
        apply List.mem_map.mpr
        refine ⟨u, ?_, hid⟩
        show u ∈ d.users.filter (fun x => x.id ≠ uid)
        apply List.mem_filter.mpr
        refine ⟨hu2, ?_⟩
        simp only [decide_eq_true_eq]
        rw [hid]
        exact ho

theorem cleanupUser_storeWf (uid : String) {l : List RoomDocument}
    (h : StoreWf l) : StoreWf (cleanupUser uid l) := by
  rw [cleanupUser_eq_filterMap uid l h.2]
  have hg : ∀ r d2,
      (if hasUser uid r then cleanupDoc uid r.ownerId r else some r) = some d2 →
      d2._id = r._id := by
    intro r d2 hrd
    by_cases hr : hasUser uid r
    · rw [if_pos hr] at hrd
      exact cleanupDoc_id hrd
    · rw [if_neg hr] at hrd
      obtain rfl : r = d2 := by injection hrd
      rfl
  constructor
  · intro x hx
    obtain ⟨r, hr, hmap⟩ := List.mem_filterMap.mp hx
    by_cases hru : hasUser uid r
    · rw [if_pos hru] at hmap
      exact cleanupDoc_roomWf (h.1 r hr) hmap
    · rw [if_neg hru] at hmap
      obtain rfl : r = x := by injection hmap
      exact h.1 r hr
  · exact h.2.sublist (filterMap_id_sublist _ hg l)

theorem step_storeWf {s s2 : ServerState} (hstep : Step s s2)
    (h : StoreWf s.rooms) : StoreWf s2.rooms := by
  cases hstep
  all_goals first
    | exact storeWf_handleCreate _ _ _ _ _ _ _ (by assumption) h
    | exact storeWf_handleJoin _ _ _ _ h
    | exact storeWf_handleVote _ _ _ _ h
    | exact storeWf_handleSpectate _ _ _ _ h
    | exact storeWf_handleReveal _ _ _ h
    | exact storeWf_handleReset _ _ _ h
    | exact cleanupUser_storeWf _ h

theorem reachable_storeWf {s : ServerState} (h : Reachable s) :
    StoreWf s.rooms := by
  induction h with
  | init prior =>
    constructor
    · intro r hr
      simp [startServer, deleteMany] at hr
    · simp [startServer, deleteMany]
  | step _ hstep ih => exact step_storeWf hstep ih

end Poker

namespace Poker

/-! Success-path computations of the handlers. -/

theorem findOne_none (p : RoomDocument → Prop) [DecidablePred p]
    {l : List RoomDocument} (h : ∀ a ∈ l, ¬ p a) : findOne p l = none := by
  induction l with
  | nil => rfl
  | cons a as ih =>
    rw [findOne_cons, if_neg (h a (List.mem_cons_self a as))]
    exact ih (fun x hx => h x (List.mem_cons_of_mem a hx))

theorem findOneAndUpdate_snd_cons (p : RoomDocument → Prop) [DecidablePred p]
    (f : RoomDocument → RoomDocument) (r : RoomDocument)
    (rs : List RoomDocument) :
    (findOneAndUpdate p f (r :: rs)).2 =
      if p r then f r :: rs else r :: (findOneAndUpdate p f rs).2 := by
  by_cases hr : p r <;> simp [findOneAndUpdate, hr]

theorem findOne_ownerId_findOneAndUpdate (rid : String)
    (p : RoomDocument → Prop) [DecidablePred p]
    (f : RoomDocument → RoomDocument) (hid : ∀ r, (f r)._id = r._id)
    (hown : ∀ r, (f r).ownerId = r.ownerId) (l : List RoomDocument) :
    (findOne (fun x => x._id = rid) (findOneAndUpdate p f l).2).map
        RoomDocument.ownerId =
      (findOne (fun x => x._id = rid) l).map RoomDocument.ownerId := by
  induction l with
  | nil => rfl
  | cons r rs ih =>
    rw [findOneAndUpdate_snd_cons]
    by_cases hp : p r
    · rw [if_pos hp]
      by_cases hq : r._id = rid
      · have hfq : (f r)._id = rid := by rw [hid r]; exact hq
        rw [findOne_cons, if_pos hfq, findOne_cons, if_pos hq]
        simp [hown r]
      · have hfq : ¬ (f r)._id = rid := by rw [hid r]; exact hq
        rw [findOne_cons, if_neg hfq, findOne_cons, if_neg hq]
    · rw [if_neg hp]
      by_cases hq : r._id = rid
      · rw [findOne_cons, if_pos hq, findOne_cons, if_pos hq]
      · rw [findOne_cons, if_neg hq, findOne_cons, if_neg hq]
        exact ih

theorem voteBound_fst (rid uid v : String) (st : ServerState) :
    (voteBound rid uid v st).1 =
      { st with rooms := (findOneAndUpdate
          (fun r => r._id = rid ∧ ∃ u ∈ r.users, u.id = uid)
          (applyToUser uid (voteUpdate v)) st.rooms).2 } := by
  unfold voteBound
  split
  · rename_i rooms1 heq
    rw [heq]
  · rename_i updatedRoom rooms1 heq
    rw [heq]

theorem applyVotes_ownerView (rid : String) (votes : List (String × String)) :
    ∀ st : ServerState,
    (findOne (fun x => x._id = rid) (applyVotes rid votes st).rooms).map
        RoomDocument.ownerId =
      (findOne (fun x => x._id = rid) st.rooms).map RoomDocument.ownerId := by
  induction votes with
  | nil => intro st; rfl
  | cons pv vs ih =>
    intro st
    show (findOne _ (applyVotes rid vs
        (handleVote (some rid) (some pv.1) pv.2 st).1).rooms).map _ = _
    rw [ih]
    show (findOne _ ((voteBound rid pv.1 pv.2 st).1).rooms).map _ = _
    rw [voteBound_fst]
    exact findOne_ownerId_findOneAndUpdate rid
      (fun r => r._id = rid ∧ ∃ u ∈ r.users, u.id = pv.1)
      (applyToUser pv.1 (voteUpdate pv.2))
      (fun r => rfl) (fun r => rfl) st.rooms

theorem findOne_updateOne_self (p : RoomDocument → Prop) [DecidablePred p]
    (f : RoomDocument → RoomDocument) {l : List RoomDocument}
    {b : RoomDocument} (hf : findOne p l = some b) (hpf : p (f b)) :
    findOne p (updateOne p f l) = some (f b) := by
  obtain ⟨as, bs, rfl, has, hb⟩ := findOne_decomp p hf
  rw [updateOne_decomp p f b bs has hb, findOne_append_not p _ has,
    findOne_cons, if_pos hpf]

theorem findOne_findOneAndUpdate_self (p : RoomDocument → Prop)
    [DecidablePred p] (f : RoomDocument → RoomDocument)
    {l : List RoomDocument} {b : RoomDocument} (hf : findOne p l = some b)
    (hpf : p (f b)) :
    (findOneAndUpdate p f l).1 = some (f b) ∧
    findOne p (findOneAndUpdate p f l).2 = some (f b) := by
  obtain ⟨as, bs, rfl, has, hb⟩ := findOne_decomp p hf
  rw [findOneAndUpdate_decomp p f b bs has hb]
  refine ⟨rfl, ?_⟩
  show findOne p (as ++ f b :: bs) = some (f b)
  rw [findOne_append_not p _ has, findOne_cons, if_pos hpf]

theorem revealBound_owner (rid uid : String) (st : ServerState)
    {r : RoomDocument} (hf : findOne (fun x => x._id = rid) st.rooms = some r)
    (ho : r.ownerId = uid) :
    (revealBound rid uid st).1 =
      { st with rooms :=
          updateOne (fun x => x._id = rid) setRevealed st.rooms } := by
  unfold revealBound
  simp only [hf]
  rw [if_neg (by rw [ho]; exact fun hc => hc rfl)]

theorem resetBound_owner (rid uid : String) (st : ServerState)
    {r : RoomDocument} (hf : findOne (fun x => x._id = rid) st.rooms = some r)
    (ho : r.ownerId = uid) :
    (resetBound rid uid st).1 =
      { st with rooms := (findOneAndUpdate (fun x => x._id = rid)
          clearVotes st.rooms).2 } := by
  unfold resetBound
  simp only [hf]
  rw [if_neg (by rw [ho]; exact fun hc => hc rfl)]
  split
  · rename_i rooms1 heq
    rw [heq]
  · rename_i updated rooms1 heq
    rw [heq]

end Poker

namespace Poker

theorem findOne_prop (p : RoomDocument → Prop) [DecidablePred p]
    {l : List RoomDocument} {b : RoomDocument} (h : findOne p l = some b) :
    p b := by
  obtain ⟨as, bs, rfl, has, hb⟩ := findOne_decomp p h
  exact hb

theorem cleanupChoice_id (uid : String) :
    ∀ x d2,
      (if hasUser uid x then cleanupDoc uid x.ownerId x else some x) = some d2 →
      d2._id = x._id := by
  intro x d2 hrd
  by_cases hr : hasUser uid x
  · rw [if_pos hr] at hrd
    exact cleanupDoc_id hrd
  · rw [if_neg hr] at hrd
    obtain rfl : x = d2 := by injection hrd
    rfl

theorem findOne_filterMap_id (g : RoomDocument → Option RoomDocument)
    (hg : ∀ x d2, g x = some d2 → d2._id = x._id) (rid : String)
    {l : List RoomDocument} {b : RoomDocument}
    (hN : (l.map RoomDocument._id).Nodup)
    (hf : findOne (fun x => x._id = rid) l = some b) :
    findOne (fun x => x._id = rid) (l.filterMap g) = g b := by
  obtain ⟨as, bs, rfl, has, hb⟩ := findOne_decomp _ hf
  rw [List.filterMap_append, List.filterMap_cons]
  have hnotAs : ∀ a2 ∈ as.filterMap g, ¬ (a2._id = rid) := by
    intro a2 ha2 hc
    obtain ⟨a, ha, hga⟩ := List.mem_filterMap.mp ha2
    exact has a ha (by rw [← hg a a2 hga]; exact hc)
  rw [findOne_append_not _ _ hnotAs]
  cases hgb : g b with
  | some d2 =>
    rw [findOne_cons, if_pos (by rw [hg b d2 hgb]; exact hb)]
  | none =>
    have hbsN : b._id ∉ bs.map RoomDocument._id := by
      rw [List.map_append, List.map_cons] at hN
      have := (List.Nodup.sublist (List.sublist_append_right _ _) hN)
      exact (List.nodup_cons.mp this).1
    apply findOne_none
    intro x2 hx2 hc
    obtain ⟨x, hx, hgx⟩ := List.mem_filterMap.mp hx2
    apply hbsN
    have hbx : b._id = x._id := by rw [hb, ← hc]; exact hg x x2 hgx
    rw [hbx]
    exact List.mem_map_of_mem RoomDocument._id hx

/-! Claim theorems. -/

/-- C1: for every reachable server state, every Room document in the store
has a non-empty `users` sequence and an `ownerId` equal to the id of some
element of `users`; the invariant is preserved by every operation (create,
join, vote, setSpectator, reveal, reset, leave/disconnect), as captured by
the `Step`-closure defining `Reachable`. -/
theorem room_invariant_reachable {s : ServerState} (h : Reachable s) :
    ∀ r ∈ s.rooms, r.users ≠ [] ∧ r.ownerId ∈ r.users.map User.id :=
  fun r hr => (reachable_storeWf h).1 r hr

/-- Witness for C1: the invariant holds for the room of a concretely
reached state (start, then one create). -/
theorem room_invariant_reachable_witness :
    (createRoomDoc "sala" "ana" ["1", "2"] "o1" "r1" 0).users ≠ [] ∧
    (createRoomDoc "sala" "ana" ["1", "2"] "o1" "r1" 0).ownerId ∈
      (createRoomDoc "sala" "ana" ["1", "2"] "o1" "r1" 0).users.map User.id :=
  room_invariant_reachable
    (Reachable.step (Reachable.init [])
      (Step.create "sala" "ana" ["1", "2"] "o1" "r1" 0 (startServer [])
        (by decide)))
    (createRoomDoc "sala" "ana" ["1", "2"] "o1" "r1" 0) (by decide)

/-- C2: any number of votes by any participants, then reveal by the owner,
then reset by the owner, leaves the room with every participant's vote
unset, every `isReady` false, and `revealed` false. -/
theorem vote_reveal_reset_clears (st : ServerState) (rid uid : String)
    (votes : List (String × String)) {r0 : RoomDocument}
    (h0 : findOne (fun x => x._id = rid) st.rooms = some r0)
    (hOwn : r0.ownerId = uid) :
    ∃ r2,
      findOne (fun x => x._id = rid)
        ((handleReset (some rid) (some uid)
          ((handleReveal (some rid) (some uid)
            (applyVotes rid votes st)).1)).1).rooms = some r2 ∧
      r2.revealed = false ∧
      ∀ u ∈ r2.users, u.vote = none ∧ u.isReady = some false := by
  have hview2 : (findOne (fun x => x._id = rid)
      (applyVotes rid votes st).rooms).map RoomDocument.ownerId = some uid := by
    rw [applyVotes_ownerView, h0, Option.map_some', hOwn]
  obtain ⟨r1, hf1, ho1⟩ := Option.map_eq_some'.mp hview2
  have hrev : (handleReveal (some rid) (some uid)
      (applyVotes rid votes st)).1 =
      { applyVotes rid votes st with rooms := (updateOne (fun x => x._id = rid)
          setRevealed (applyVotes rid votes st).rooms) } :=
    revealBound_owner rid uid _ hf1 ho1
  have hf2 : findOne (fun x => x._id = rid)
      ((handleReveal (some rid) (some uid) (applyVotes rid votes st)).1).rooms =
      some (setRevealed r1) := by
    rw [hrev]
    exact findOne_updateOne_self _ setRevealed hf1
      (show r1._id = rid from findOne_prop _ hf1)
  have ho2 : (setRevealed r1).ownerId = uid := ho1
  have hres : (handleReset (some rid) (some uid)
      ((handleReveal (some rid) (some uid) (applyVotes rid votes st)).1)).1 =
      { (handleReveal (some rid) (some uid) (applyVotes rid votes st)).1 with
        rooms := ((findOneAndUpdate (fun x => x._id = rid) clearVotes
          ((handleReveal (some rid) (some uid)
            (applyVotes rid votes st)).1).rooms).2) } :=
    resetBound_owner rid uid _ hf2 ho2
  have hf3 : findOne (fun x => x._id = rid)
      ((handleReset (some rid) (some uid)
        ((handleReveal (some rid) (some uid)
          (applyVotes rid votes st)).1)).1).rooms =
      some (clearVotes (setRevealed r1)) := by
    rw [hres]
    exact (findOne_findOneAndUpdate_self _ clearVotes hf2
      (show (setRevealed r1)._id = rid from findOne_prop _ hf1)).2
  refine ⟨clearVotes (setRevealed r1), hf3, rfl, ?_⟩
  intro u hu
  obtain ⟨u0, hu0, rfl⟩ := List.mem_map.mp hu
  exact ⟨rfl, rfl⟩

/-- Witness for C2: concrete run with one vote by the owner. -/
theorem vote_reveal_reset_clears_witness :
    ∃ r2,
      findOne (fun x => x._id = "r1")
        ((handleReset (some "r1") (some "o1")
          ((handleReveal (some "r1") (some "o1")
            (applyVotes "r1" [("o1", "3")] exCreateSt)).1)).1).rooms = some r2 ∧
      r2.revealed = false ∧
      ∀ u ∈ r2.users, u.vote = none ∧ u.isReady = some false :=
  vote_reveal_reset_clears exCreateSt "r1" "o1" [("o1", "3")]
    (show findOne (fun x => x._id = "r1") exCreateSt.rooms =
      some (createRoomDoc "sala" "ana" ["1", "2"] "o1" "r1" 0) by decide)
    (by decide)

/-- C9: the leave/disconnect cleanup is idempotent on the rooms store
(primary keys are unique in the store), and it is a no-op when the
participant is absent from every room. -/
theorem leave_idempotent (rooms : List RoomDocument) (uid : String)
    (hN : (rooms.map RoomDocument._id).Nodup) :
    cleanupUser uid (cleanupUser uid rooms) = cleanupUser uid rooms ∧
    ((∀ x ∈ rooms, hasUser uid x = false) → cleanupUser uid rooms = rooms) :=
  ⟨cleanupUser_absent uid (cleanupUser_not_hasUser uid hN),
   fun h => cleanupUser_absent uid h⟩

/-- Witness for C9: cleanup twice equals cleanup once on a concrete
two-member room. -/
theorem leave_idempotent_witness :
    cleanupUser "u1" (cleanupUser "u1" [exRoomTwo]) =
      cleanupUser "u1" [exRoomTwo] :=
  (leave_idempotent [exRoomTwo] "u1" (by decide)).1

/-- C10: startup runs `deleteMany` before any connection is accepted, so
whatever the prior store contents, the rooms collection is empty when the
first command is processed; in particular a join aimed at any pre-restart
room id fails with "Sala no encontrada". -/
theorem startup_clears_store (prior : List RoomDocument)
    (rid userName uid : String) :
    (startServer prior).rooms = [] ∧
    handleJoin rid userName uid (startServer prior) =
      (startServer prior, ⟨[ServerMsg.roomError "Sala no encontrada"], []⟩) :=
  ⟨rfl, rfl⟩

end Poker

namespace Poker

/-- C3: for an existing room containing participant `uid`, the disconnect
cleanup removes `uid` from `users`; if no participant remains the Room
document is deleted from the store, otherwise, when `uid` was the owner,
`ownerId` is reassigned to the first remaining participant in join
order. -/
theorem leave_removes_and_reassigns (rooms : List RoomDocument)
    (rid uid : String) {r : RoomDocument}
    (hN : (rooms.map RoomDocument._id).Nodup)
    (hr : findOne (fun x => x._id = rid) rooms = some r)
    (hp : hasUser uid r = true) :
    (r.users.filter (fun u => u.id ≠ uid) = [] →
      findOne (fun x => x._id = rid) (cleanupUser uid rooms) = none) ∧
    (∀ w ws, r.users.filter (fun u => u.id ≠ uid) = w :: ws →
      findOne (fun x => x._id = rid) (cleanupUser uid rooms) =
        some ({ r with users := w :: ws,
                       ownerId := (if r.ownerId = uid then w.id else r.ownerId) })) := by
  rw [cleanupUser_eq_filterMap uid rooms hN]
  have hfm := findOne_filterMap_id _ (cleanupChoice_id uid) rid hN hr
  rw [hfm, if_pos hp]
  constructor
  · intro hnil
    simp only [decide_not] at hnil
    simp [cleanupDoc, pullUser, decide_not, hnil]
  · intro w ws hcons
    simp only [decide_not] at hcons
    by_cases ho : r.ownerId = uid
    · simp [cleanupDoc, pullUser, decide_not, ho, hcons]
    · simp [cleanupDoc, pullUser, decide_not, ho, hcons]

/-- Witness for C3: the owner leaves a two-member room, the remaining
member becomes the owner. -/
theorem leave_removes_and_reassigns_witness :
    findOne (fun x => x._id = "r1") (cleanupUser "u1" [exRoomTwo]) =
      some { exRoomTwo with users := [exBob], ownerId := "u2" } := by
  have h := (leave_removes_and_reassigns [exRoomTwo] "r1" "u1" (by decide)
    (show findOne (fun x => x._id = "r1") [exRoomTwo] = some exRoomTwo
      by decide) (by decide)).2 exBob [] (by decide)
  rw [h]
  decide

/-- Counterexample for C8: a bound non-owner spectator with a recorded
vote leaves spectator mode; the store then holds `vote = null` and
`isReady = null` for that participant (the driver serializes the update's
`undefined` members as `null`), so the claim that `setSpectator(false)`
changes only the spectator flag is false at this input. -/
theorem spectate_false_clears_counterexample :
    (handleSpectate (some "r1") (some "u2") false exStSpectVoted).2.direct = [] ∧
    (handleSpectate (some "r1") (some "u2") false exStSpectVoted).1.rooms =
      [{ exRoomSpect with users := [exAlice, exBobLeftSpect] }] ∧
    exRoomSpectVoted.ownerId = "u1" ∧
    exBobSpectVoted.vote = some "5" ∧ exBobLeftSpect.vote = none ∧
    exBobSpectVoted.isReady = some true ∧ exBobLeftSpect.isReady = none ∧
    exBobLeftSpect.spectator = false := by decide

/-- C8 amended: for a bound non-owner participant present in the room,
`setSpectator true` sets the spectator flag and writes `vote = null`,
`isReady = false` in the same update, while `setSpectator false` sets the
flag to false and also writes `vote = null`, `isReady = null` (the
driver's `ignoreUndefined: false` default serializes the update's
`undefined` members as `null`); the other participants and the remaining
room fields are unchanged, and no error is reported. -/
theorem spectate_updates_exactly (st : ServerState) (rid uid : String)
    (flag : Bool) {rs1 rs2 : List RoomDocument} {r : RoomDocument}
    {us1 us2 : List User} {u : User}
    (hst : st.rooms = rs1 ++ r :: rs2)
    (hrs1 : ∀ x ∈ rs1, ¬ x._id = rid) (hrid : r._id = rid)
    (hus : r.users = us1 ++ u :: us2)
    (hus1 : ∀ w ∈ us1, w.id ≠ uid) (huid : u.id = uid)
    (hNotOwner : r.ownerId ≠ uid) :
    (handleSpectate (some rid) (some uid) flag st).1.rooms =
      rs1 ++ { r with users := us1 ++ spectateUpdate flag u :: us2 } :: rs2 ∧
    (handleSpectate (some rid) (some uid) flag st).2.direct = [] ∧
    spectateUpdate true u =
      { u with spectator := true, isReady := some false, vote := none } ∧
    spectateUpdate false u =
      { u with spectator := false, isReady := none, vote := none } := by
  have humem : u ∈ r.users := by
    rw [hus]
    exact List.mem_append_right _ (List.mem_cons_self u us2)
  have hpr : r._id = rid ∧ ∃ w ∈ r.users, w.id = uid := ⟨hrid, u, humem, huid⟩
  have has : ∀ a ∈ rs1, ¬ (a._id = rid ∧ ∃ w ∈ a.users, w.id = uid) :=
    fun a ha hc => hrs1 a ha hc.1
  have hfr : applyToUser uid (spectateUpdate flag) r =
      { r with users := us1 ++ spectateUpdate flag u :: us2 } := by
    unfold applyToUser
    rw [hus, setFirstUser_append_not uid _ u us2 hus1 huid]
  have hd : findOneAndUpdate
      (fun x => x._id = rid ∧ ∃ w ∈ x.users, w.id = uid)
      (applyToUser uid (spectateUpdate flag)) st.rooms =
      (some { r with users := us1 ++ spectateUpdate flag u :: us2 },
       rs1 ++ { r with users := us1 ++ spectateUpdate flag u :: us2 } :: rs2) := by
    rw [hst, findOneAndUpdate_decomp _ _ r rs2 has hpr, hfr]
  refine ⟨?_, ?_, ?_, ?_⟩
  · show (spectateBound rid uid flag st).1.rooms = _
    unfold spectateBound
    rw [hd]
  · show (spectateBound rid uid flag st).2.direct = _
    unfold spectateBound
    rw [hd]
  · rfl
  · rfl

/-- Witness for C8's amended claim: the concrete spectator with a
recorded vote leaves spectator mode. -/
theorem spectate_updates_exactly_witness :
    (handleSpectate (some "r1") (some "u2") false exStSpectVoted).1.rooms =
      [{ exRoomSpectVoted with users := [exAlice, spectateUpdate false exBobSpectVoted] }] ∧
    (handleSpectate (some "r1") (some "u2") false exStSpectVoted).2.direct = [] ∧
    spectateUpdate true exBobSpectVoted =
      { exBobSpectVoted with spectator := true, isReady := some false, vote := none } ∧
    spectateUpdate false exBobSpectVoted =
      { exBobSpectVoted with spectator := false, isReady := none, vote := none } :=
  @spectate_updates_exactly exStSpectVoted "r1" "u2" false [] []
    exRoomSpectVoted [exAlice] [] exBobSpectVoted rfl (by decide) rfl rfl
    (by decide) rfl (by decide)

end Poker

namespace Poker

/-- Counterexample for C4: a bound spectator votes; the handler reports no
error and records the vote, so the claim (fail with ForbiddenError, state
unchanged) is false at this input. -/
theorem vote_spectator_counterexample :
    (handleVote (some "r1") (some "u2") "5" exStSpect).2.direct = [] ∧
    (handleVote (some "r1") (some "u2") "5" exStSpect).1.rooms =
      [{ exRoomSpect with users := [exAlice, exBobSpectVoted] }] ∧
    exBobSpectVoted.vote = some "5" ∧ exBobSpectVoted.isReady = some true ∧
    exBobSpectVoted.spectator = true := by decide

/-- C4 amended: the vote handler performs no spectator check.  For a bound
participant present in the room whose spectator flag is true, the vote
succeeds: the participant's `vote` is set and `isReady` becomes true (the
spectator flag untouched), the other participants and room fields are
unchanged, and no error is reported. -/
theorem vote_ignores_spectator (st : ServerState) (rid uid v : String)
    {rs1 rs2 : List RoomDocument} {r : RoomDocument}
    {us1 us2 : List User} {u : User}
    (hst : st.rooms = rs1 ++ r :: rs2)
    (hrs1 : ∀ x ∈ rs1, ¬ x._id = rid) (hrid : r._id = rid)
    (hus : r.users = us1 ++ u :: us2)
    (hus1 : ∀ w ∈ us1, w.id ≠ uid) (huid : u.id = uid)
    (hspec : u.spectator = true) :
    (handleVote (some rid) (some uid) v st).1.rooms =
      rs1 ++ { r with users := us1 ++ voteUpdate v u :: us2 } :: rs2 ∧
    (handleVote (some rid) (some uid) v st).2.direct = [] ∧
    (voteUpdate v u).vote = some v ∧ (voteUpdate v u).isReady = some true ∧
    (voteUpdate v u).spectator = true := by
  have humem : u ∈ r.users := by
    rw [hus]
    exact List.mem_append_right _ (List.mem_cons_self u us2)
  have hpr : r._id = rid ∧ ∃ w ∈ r.users, w.id = uid := ⟨hrid, u, humem, huid⟩
  have has : ∀ a ∈ rs1, ¬ (a._id = rid ∧ ∃ w ∈ a.users, w.id = uid) :=
    fun a ha hc => hrs1 a ha hc.1
  have hfr : applyToUser uid (voteUpdate v) r =
      { r with users := us1 ++ voteUpdate v u :: us2 } := by
    unfold applyToUser
    rw [hus, setFirstUser_append_not uid _ u us2 hus1 huid]
  have hd : findOneAndUpdate
      (fun x => x._id = rid ∧ ∃ w ∈ x.users, w.id = uid)
      (applyToUser uid (voteUpdate v)) st.rooms =
      (some { r with users := us1 ++ voteUpdate v u :: us2 },
       rs1 ++ { r with users := us1 ++ voteUpdate v u :: us2 } :: rs2) := by
    rw [hst, findOneAndUpdate_decomp _ _ r rs2 has hpr, hfr]
  refine ⟨?_, ?_, rfl, rfl, hspec⟩
  · show (voteBound rid uid v st).1.rooms = _
    unfold voteBound
    rw [hd]
  · show (voteBound rid uid v st).2.direct = _
    unfold voteBound
    rw [hd]

/-- Witness for C4's amended claim: the concrete spectator vote. -/
theorem vote_ignores_spectator_witness :
    (handleVote (some "r1") (some "u2") "5" exStSpect).1.rooms =
      [{ exRoomSpect with users := [exAlice, voteUpdate "5" exBobSpect] }] ∧
    (handleVote (some "r1") (some "u2") "5" exStSpect).2.direct = [] ∧
    (voteUpdate "5" exBobSpect).vote = some "5" ∧
    (voteUpdate "5" exBobSpect).isReady = some true ∧
    (voteUpdate "5" exBobSpect).spectator = true :=
  @vote_ignores_spectator exStSpect "r1" "u2" "5" [] [] exRoomSpect
    [exAlice] [] exBobSpect rfl (by decide) rfl rfl (by decide) rfl rfl

/-- Counterexample for C5: a create request with empty `roomName` and
`ownerName` inserts a Room document and reports no error, so the claim
(fail with ValidationError, nothing inserted) is false at this input. -/
theorem create_empty_names_counterexample :
    (handleCreate "" "" ["1"] "o1" "r1" 0 (startServer [])).1.rooms =
      [createRoomDoc "" "" ["1"] "o1" "r1" 0] ∧
    (handleCreate "" "" ["1"] "o1" "r1" 0 (startServer [])).2.direct = [] ∧
    (createRoomDoc "" "" ["1"] "o1" "r1" 0).name = "" ∧
    (handleCreate "" "" ["1"] "o1" "r1" 0 (startServer [])).2.sent =
      [⟨"o1", ServerMsg.roomCreated (createRoomDoc "" "" ["1"] "o1" "r1" 0) "o1"⟩] := by
  decide

/-- C5 amended: the create handler performs no validation; even with empty
`roomName` and `ownerName` the Room document is inserted into the store
and the direct reply carries no error. -/
theorem create_empty_names_no_validation (cards : List String)
    (ownerId roomId : String) (now : Nat) (st : ServerState)
    (hFresh : roomId ∉ st.rooms.map RoomDocument._id) :
    findOne (fun x => x._id = roomId)
        ((handleCreate "" "" cards ownerId roomId now st).1.rooms) =
      some (createRoomDoc "" "" cards ownerId roomId now) ∧
    (handleCreate "" "" cards ownerId roomId now st).2.direct = [] := by
  have hnot : ∀ a ∈ st.rooms, ¬ (a._id = roomId) := fun a ha hc =>
    hFresh (hc ▸ List.mem_map_of_mem RoomDocument._id ha)
  constructor
  · show findOne _ (st.rooms ++ [createRoomDoc "" "" cards ownerId roomId now]) = _
    rw [findOne_append_not _ _ hnot, findOne_cons,
      if_pos (show (createRoomDoc "" "" cards ownerId roomId now)._id = roomId
        from rfl)]
  · rfl

/-- Witness for C5's amended claim: concrete empty-name create. -/
theorem create_empty_names_no_validation_witness :
    findOne (fun x => x._id = "r1")
        ((handleCreate "" "" ["1"] "o1" "r1" 0 (startServer [])).1.rooms) =
      some (createRoomDoc "" "" ["1"] "o1" "r1" 0) ∧
    (handleCreate "" "" ["1"] "o1" "r1" 0 (startServer [])).2.direct = [] :=
  create_empty_names_no_validation ["1"] "o1" "r1" 0 (startServer [])
    (by decide)

/-- Counterexample for C6: when bob joins alice's room, the handler's
sent list contains, besides bob's direct `room:joined`, a `room:updated`
delivery to bob himself — the broadcast does not exclude the joiner, so
the claim is false at this input. -/
theorem join_duplicate_update_counterexample :
    (handleJoin "r1" "bob" "u2" exAliceSt).2.sent =
      [⟨"u2", ServerMsg.roomJoined exJoinedRoom "u2"⟩,
       ⟨"u1", ServerMsg.roomUpdated exJoinedRoom⟩,
       ⟨"u2", ServerMsg.roomUpdated exJoinedRoom⟩] ∧
    ⟨"u2", ServerMsg.roomUpdated exJoinedRoom⟩ ∈
      (handleJoin "r1" "bob" "u2" exAliceSt).2.sent := by decide

/-- C6 amended: on a successful join the joiner receives the direct
`room:joined` result and, because the room-wide broadcast passes no
`excludeUserId`, also the `room:updated` broadcast; every prior member
with a live connection receives the same `room:updated`. -/
theorem join_update_includes_joiner (roomId userName uid : String)
    (st : ServerState) {rs1 rs2 : List RoomDocument} {r : RoomDocument}
    (hst : st.rooms = rs1 ++ r :: rs2)
    (hrs1 : ∀ x ∈ rs1, ¬ x._id = roomId) (hrid : r._id = roomId) :
    ⟨uid, ServerMsg.roomJoined (pushUser (joinUser uid userName) r) uid⟩ ∈
      (handleJoin roomId userName uid st).2.sent ∧
    ⟨uid, ServerMsg.roomUpdated (pushUser (joinUser uid userName) r)⟩ ∈
      (handleJoin roomId userName uid st).2.sent ∧
    ∀ w ∈ r.users, w.id ∈ st.conns →
      ⟨w.id, ServerMsg.roomUpdated (pushUser (joinUser uid userName) r)⟩ ∈
        (handleJoin roomId userName uid st).2.sent := by
  have hfind : findOne (fun x => x._id = roomId) st.rooms = some r := by
    rw [hst, findOne_append_not _ _ hrs1, findOne_cons, if_pos hrid]
  have hd : findOneAndUpdate (fun x => x._id = roomId)
      (pushUser (joinUser uid userName)) st.rooms =
      (some (pushUser (joinUser uid userName) r),
       rs1 ++ pushUser (joinUser uid userName) r :: rs2) := by
    rw [hst]
    exact findOneAndUpdate_decomp _ _ r rs2 hrs1 hrid
  have hsent : (handleJoin roomId userName uid st).2.sent =
      broadcastToUser (addConn uid st.conns) uid
        (ServerMsg.roomJoined (pushUser (joinUser uid userName) r) uid) ++
      broadcast (addConn uid st.conns) (pushUser (joinUser uid userName) r)
        (ServerMsg.roomUpdated (pushUser (joinUser uid userName) r)) none := by
    unfold handleJoin
    simp only [hfind, hd]
  refine ⟨?_, ?_, ?_⟩
  · rw [hsent]
    apply List.mem_append_left
    simp [broadcastToUser, addConn]
  · rw [hsent]
    apply List.mem_append_right
    exact mem_broadcast _ _ _
      (show joinUser uid userName ∈ (pushUser (joinUser uid userName) r).users
        by simp [pushUser])
      (List.mem_cons_self uid st.conns)
  · intro w hw hwc
    rw [hsent]
    apply List.mem_append_right
    exact mem_broadcast _ _ _
      (show w ∈ (pushUser (joinUser uid userName) r).users
        from List.mem_append_left _ hw)
      (List.mem_cons_of_mem uid hwc)

/-- Witness for C6's amended claim: the concrete two-member join. -/
theorem join_update_includes_joiner_witness :
    ⟨"u2", ServerMsg.roomJoined exJoinedRoom "u2"⟩ ∈
      (handleJoin "r1" "bob" "u2" exAliceSt).2.sent ∧
    ⟨"u2", ServerMsg.roomUpdated exJoinedRoom⟩ ∈
      (handleJoin "r1" "bob" "u2" exAliceSt).2.sent ∧
    ∀ w ∈ (createRoomDoc "sala" "alice" ["1", "2"] "u1" "r1" 0).users,
      w.id ∈ exAliceSt.conns →
        ⟨w.id, ServerMsg.roomUpdated exJoinedRoom⟩ ∈
          (handleJoin "r1" "bob" "u2" exAliceSt).2.sent :=
  @join_update_includes_joiner "r1" "bob" "u2" exAliceSt [] []
    (createRoomDoc "sala" "alice" ["1", "2"] "u1" "r1" 0) rfl (by decide) rfl

/-- Counterexample for C7: the room owner requests spectator mode; the
handler reports no error and sets the owner's spectator flag, so the
claim (fail with ForbiddenError, room unchanged, owner never spectator)
is false at this input. -/
theorem spectate_owner_counterexample :
    (handleSpectate (some "r1") (some "o1") true exCreateSt).2.direct = [] ∧
    (handleSpectate (some "r1") (some "o1") true exCreateSt).1.rooms =
      [exOwnerSpectRoom] ∧
    exOwnerSpectRoom.ownerId = "o1" ∧ exAnaSpect.id = "o1" ∧
    exAnaSpect.spectator = true := by decide

/-- C7 amended: the spectate handler performs no owner check, so the
operation succeeds for the owner as for anyone else; consequently a
reachable server state exists whose room owner has the spectator flag
set. -/
theorem owner_can_become_spectator :
    ∃ st, Reachable st ∧ ∃ r ∈ st.rooms, ∃ u ∈ r.users,
      u.id = r.ownerId ∧ u.spectator = true := by
  refine ⟨exSpectOwnerSt, ?_, ?_⟩
  · exact Reachable.step
      (Reachable.step (Reachable.init [])
        (Step.create "sala" "ana" ["1", "2"] "o1" "r1" 0 (startServer [])
          (by decide)))
      (Step.spectate (some "r1") (some "o1") true exCreateSt)
  · decide

end Poker
